import Mathlib

/-!
Shallow embedding of `hydragram`'s `peer_resolve.py` (class `PeerResolver`).

The module resolves a user-supplied identifier (numeric ID, username,
t.me / telegram.org link, or "self") into an input-peer reference.  Pure
string processing (`_parse_input_string`) is embedded as executable Lean
functions; the async methods (`resolve`, `_resolve_cached_username`,
`_resolve_username_api`, `_resolve_by_id`) are embedded as state-free
functions over an environment `Env` that models the external pyrogram
client (connection flag, storage/cache lookups, network `invoke`).  Each
embedded method additionally returns the ordered trace of external calls
it performed, so temporal claims about cache-before-network ordering can
be stated.  Python exceptions are modelled by the inductive `PyExc` and
fallible calls by `Except PyExc`.

The numeric helpers `get_channel_id` / `get_peer_type` and the ID-range
constants come from the external `pyrogram.utils` dependency that the
source imports; they are embedded here with pyrogram's values.  Character
classes (`\w`, `\s`, `str.lower`) are modelled on their ASCII fragment.
-/

/-- Python exceptions that can flow through `PeerResolver`.  `otherExc`
stands for any exception raised by the external client that the resolver
does not special-case (RPC errors, flood waits, ...). -/
inductive PyExc
  | keyError
  | attributeError
  | operationalError
  | connectionError
  | peerIdInvalid
  | valueError
  | typeError
  | otherExc (tag : Nat)
deriving DecidableEq, Repr

/-- The `result.peer` field of a `contacts.ResolveUsername` answer:
`raw.types.PeerUser`, `raw.types.PeerChat`, `raw.types.PeerChannel`, or
some other object (`otherPeer`). -/
inductive RawPeer
  | peerUser (user_id : Int)
  | peerChat (chat_id : Int)
  | peerChannel (channel_id : Int)
  | otherPeer (tag : Nat)
deriving DecidableEq, Repr

/-- Input peers as returned by the resolver.  `externalPeer` stands for a
value produced by the external client (cache rows, `utils.get_input_peer`
applied to server answers) rather than constructed by this module. -/
inductive InputPeer
  | inputPeerSelf
  | inputPeerUser (user_id : Int) (access_hash : Int)
  | inputPeerChannel (channel_id : Int) (access_hash : Int)
  | externalPeer (tag : Nat)
deriving DecidableEq, Repr

/-- The raw API requests `PeerResolver` sends through `client.invoke`. -/
inductive Request
  | resolveUsernameReq (username : String)
  | getUsersReq (user_id : Int) (access_hash : Int)
  | getChatsReq (chat_id : Int)
  | getChannelsReq (channel_id : Int) (access_hash : Int)
deriving DecidableEq, Repr

/-- One external call performed by the resolver, in order of execution. -/
inductive Event
  | cacheUsernameLookup (u : String)
  | cacheIdLookup (i : Option Int)
  | sqliteQuery (u : String)
  | net (r : Request)
deriving DecidableEq, Repr

/-- The `peer_id` argument: `Union[int, str, None]`. -/
inductive PeerId
  | pyNone
  | pyInt (i : Int)
  | pyStr (s : String)
deriving DecidableEq, Repr

/-- pyrogram `utils.MIN_CHANNEL_ID`. -/
def MIN_CHANNEL_ID : Int := -1002147483647

/-- pyrogram `utils.MAX_CHANNEL_ID`. -/
def MAX_CHANNEL_ID : Int := -1000000000000

/-- pyrogram `utils.MIN_CHAT_ID`. -/
def MIN_CHAT_ID : Int := -2147483647

/-- pyrogram `utils.MAX_USER_ID`. -/
def MAX_USER_ID : Int := 999999999999

/-- pyrogram `utils.get_channel_id`: `MAX_CHANNEL_ID - id`. -/
def get_channel_id (i : Int) : Int := MAX_CHANNEL_ID - i

/-- pyrogram `utils.get_peer_type`: classify a numeric ID as "chat",
"channel" or "user" by range, raising `ValueError` otherwise. -/
def get_peer_type (peer_id : Int) : Except PyExc String :=
  if peer_id < 0 then
    if MIN_CHAT_ID ≤ peer_id then .ok "chat"
    else if MIN_CHANNEL_ID ≤ peer_id then .ok "channel"
    else .error .valueError
  else if 0 < peer_id ∧ peer_id ≤ MAX_USER_ID then .ok "user"
  else .error .valueError

/-- ASCII fragment of Python `str.lower` on one character. -/
def pyToLower (c : Char) : Char :=
  match c with
  | 'A' => 'a' | 'B' => 'b' | 'C' => 'c' | 'D' => 'd' | 'E' => 'e'
  | 'F' => 'f' | 'G' => 'g' | 'H' => 'h' | 'I' => 'i' | 'J' => 'j'
  | 'K' => 'k' | 'L' => 'l' | 'M' => 'm' | 'N' => 'n' | 'O' => 'o'
  | 'P' => 'p' | 'Q' => 'q' | 'R' => 'r' | 'S' => 's' | 'T' => 't'
  | 'U' => 'u' | 'V' => 'v' | 'W' => 'w' | 'X' => 'x' | 'Y' => 'y'
  | 'Z' => 'z'
  | c => c

/-- Python `str.lower` on a character list (ASCII fragment). -/
def pyLower (l : List Char) : List Char := l.map pyToLower

/-- Regex class `[\w]` (ASCII fragment): letters, digits, underscore. -/
def isWordChar (c : Char) : Bool := c.isAlphanum || c = '_'

/-- Regex class `\s` (ASCII fragment). -/
def isPySpace (c : Char) : Bool :=
  c = ' ' || c = '\t' || c = '\n' || c = '\r' || c = '\x0b' || c = '\x0c'

/-- A character removed by `re.sub(r"[@+\s]", "", ...)`. -/
def strippedChar (c : Char) : Bool := c = '@' || c = '+' || isPySpace c

/-- Consume the literal `lit` from the front of `l`, returning the rest. -/
def dropLit : List Char → List Char → Option (List Char)
  | [], l => some l
  | _ :: _, [] => none
  | p :: ps, c :: cs => if c = p then dropLit ps cs else none

/-- Characters of the literal `https://`. -/
def litHttps : List Char := ['h', 't', 't', 'p', 's', ':', '/', '/']

/-- Characters of the literal `http://`. -/
def litHttp : List Char := ['h', 't', 't', 'p', ':', '/', '/']

/-- Characters of the literal `t.me/`. -/
def litTme : List Char := ['t', '.', 'm', 'e', '/']

/-- Characters of the literal `telegram.org/`. -/
def litTgOrg : List Char :=
  ['t', 'e', 'l', 'e', 'g', 'r', 'a', 'm', '.', 'o', 'r', 'g', '/']

/-- Characters of the literal `telegram.me/`. -/
def litTgMe : List Char :=
  ['t', 'e', 'l', 'e', 'g', 'r', 'a', 'm', '.', 'm', 'e', '/']

/-- Characters of the literal `telegram.dog/`. -/
def litTgDog : List Char :=
  ['t', 'e', 'l', 'e', 'g', 'r', 'a', 'm', '.', 'd', 'o', 'g', '/']

/-- The optional scheme `(?:https?://)?` of the link regex.  The scheme
and host alternatives are prefix-disjoint, so first-match consumption is
equivalent to the regex's backtracking search. -/
def dropScheme (l : List Char) : List Char :=
  match dropLit litHttps l with
  | some r => r
  | none =>
    match dropLit litHttp l with
    | some r => r
    | none => l

/-- The host alternation `(?:t\.me/|telegram\.(?:org|me|dog)/)`. -/
def dropHost (l : List Char) : Option (List Char) :=
  match dropLit litTme l with
  | some r => some r
  | none =>
    match dropLit litTgOrg l with
    | some r => some r
    | none =>
      match dropLit litTgMe l with
      | some r => some r
      | none =>
        match dropLit litTgDog l with
        | some r => some r
        | none => none

/-- The continuation after consuming `c/`: capture `[\w]+` from the
tail, or fall back to the group `c` when no word character follows (the
regex backtracks and keeps the `c` as the group). -/
def groupTail : List Char → Option (List Char)
  | [] => some ['c']
  | c :: cs =>
    if isWordChar c then some (List.takeWhile isWordChar (c :: cs))
    else some ['c']

/-- Capture after an optional `c/`: see `groupOf`. -/
def groupOf : List Char → Option (List Char)
  | [] => none
  | [a] => if isWordChar a then some [a] else none
  | a :: b :: tail =>
    if a = 'c' ∧ b = '/' then groupTail tail
    else if List.takeWhile isWordChar (a :: b :: tail) = [] then none
    else some (List.takeWhile isWordChar (a :: b :: tail))

/-- The `re.match` of the full link pattern, returning `group(1)`. -/
def pyMatchGroup (l : List Char) : Option (List Char) :=
  match dropHost (dropScheme l) with
  | none => none
  | some rest => groupOf rest

/-- Shape accepted by Python `int()` restricted to word characters:
digits with single underscores between digit groups. -/
def goodRest : List Char → Bool
  | [] => true
  | '_' :: c :: rest => c.isDigit && goodRest rest
  | c :: rest => c.isDigit && goodRest rest

/-- Holds (`goodInt l = true`) iff Python `int("".join(l))` succeeds, for `l` made of
word characters (no sign or blank can occur in a `[\w]+` group). -/
def goodInt : List Char → Bool
  | [] => false
  | c :: rest => c.isDigit && goodRest rest

/-- Decimal value of a digit list. -/
def valOfDigits (l : List Char) : Nat :=
  l.foldl (fun a c => 10 * a + (c.toNat - 48)) 0

/-- Python `int()` on a word-character group: underscores are digit-group
separators; anything else raises `ValueError` (modelled as `none`). -/
def intOfWord (l : List Char) : Option Nat :=
  if goodInt l then some (valOfDigits (l.filter (fun c => c != '_'))) else none

/-- Model of `PeerResolver._parse_input_string`: lowercase the input, try the link
regex (a numeric group becomes `get_channel_id`, a non-numeric group is
returned as the username), otherwise strip `@`, `+` and whitespace. -/
def parseInputString (s : String) : Sum Int String :=
  let low := pyLower s.data
  match pyMatchGroup low with
  | some g =>
    match intOfWord g with
    | some n => Sum.inl (get_channel_id (Int.ofNat n))
    | none => Sum.inr (String.mk g)
  | none => Sum.inr (String.mk (low.filter (fun c => !strippedChar c)))

example : parseInputString "t.me/123" = Sum.inl (-1000000000123) := by decide
example : parseInputString "@Foo Bar" = Sum.inr "foobar" := by decide
example : parseInputString "https://t.me/c/77" = Sum.inl (-1000000000077) := by
  decide
example : parseInputString "telegram.dog/SomeUser" = Sum.inr "someuser" := by
  decide
example : parseInputString "t .me/foo" = Sum.inr "t.me/foo" := by decide
example : parseInputString "t.me/c/" = Sum.inr "c" := by decide

/-- Answer of `contacts.ResolveUsername`: the modelled `getattr(result,
'peer', None)` field. -/
structure ApiResult where
  peer : Option RawPeer
deriving DecidableEq, Repr

/-- A row of the `peers` SQLite table (opaque to the resolver). -/
def PeerRow : Type := Nat

/-- Model of the external pyrogram client: the connection flag, the
storage/cache lookups, and the network `invoke`.  Every fallible external
call is a function into `Except PyExc`, free to return any answer or
raise any exception. -/
structure Env where
  is_connected : Bool
  /-- Models `client.storage.get_peer_by_username` (raises `AttributeError` when
  the storage backend lacks the method). -/
  getPeerByUsername : String → Except PyExc InputPeer
  /-- Models `client.storage.conn.execute(...)` + `fetchone()` on the `peers`
  table, keyed by the lowercased username. -/
  sqliteFetch : String → Except PyExc (Option PeerRow)
  /-- Models `utils.get_input_peer(utils.parse_peer_row(row))` on a fetched row. -/
  parsePeerRow : PeerRow → Except PyExc InputPeer
  /-- Models `client.storage.get_peer_by_id` (the argument is `peer_id`, which
  can be `None` in Python). -/
  getPeerById : Option Int → Except PyExc InputPeer
  /-- Models `client.invoke(raw.functions.contacts.ResolveUsername(...))`. -/
  invokeResolve : String → Except PyExc ApiResult
  /-- Models `client.invoke` for GetUsers/GetChats/GetChannels composed with the
  `[0]` indexing and `utils.get_input_peer` post-processing. -/
  invokeGeneric : Request → Except PyExc InputPeer

/-- Model of `PeerResolver._resolve_cached_username`: try
`storage.get_peer_by_username`; on `AttributeError` fall back to a direct
SQLite query on the lowercased username, raising `KeyError` when no row
matches. -/
def resolveCachedUsername (env : Env) (u : String) :
    Except PyExc InputPeer × List Event :=
  match env.getPeerByUsername u with
  | .ok p => (.ok p, [.cacheUsernameLookup u])
  | .error .attributeError =>
    let lu := String.mk (pyLower u.data)
    match env.sqliteFetch lu with
    | .error e => (.error e, [.cacheUsernameLookup u, .sqliteQuery lu])
    | .ok (some row) =>
      (env.parsePeerRow row, [.cacheUsernameLookup u, .sqliteQuery lu])
    | .ok none => (.error .keyError, [.cacheUsernameLookup u, .sqliteQuery lu])
  | .error e => (.error e, [.cacheUsernameLookup u])

/-- Model of `PeerResolver._resolve_username_api`: invoke `ResolveUsername`; build
an `InputPeerUser`/`InputPeerChannel` with `access_hash=0` for a
`PeerUser`/`PeerChannel` answer, raise `PeerIdInvalid` otherwise. -/
def resolveUsernameApi (env : Env) (u : String) :
    Except PyExc InputPeer × List Event :=
  let ev := Event.net (Request.resolveUsernameReq u)
  match env.invokeResolve u with
  | .error e => (.error e, [ev])
  | .ok res =>
    match res.peer with
    | some (.peerUser uid) => (.ok (.inputPeerUser uid 0), [ev])
    | some (.peerChannel cid) =>
      (.ok (.inputPeerChannel (get_channel_id cid) 0), [ev])
    | _ => (.error .peerIdInvalid, [ev])

/-- Model of `PeerResolver._resolve_by_id`: classify the ID with
`utils.get_peer_type` and invoke GetUsers / GetChats / GetChannels
accordingly.  A `None` argument would raise `TypeError` inside
`get_peer_type` (`None < 0`). -/
def resolveById (env : Env) (pid : Option Int) :
    Except PyExc InputPeer × List Event :=
  match pid with
  | none => (.error .typeError, [])
  | some i =>
    match get_peer_type i with
    | .error e => (.error e, [])
    | .ok t =>
      if t = "user" then
        let req := Request.getUsersReq i 0
        (env.invokeGeneric req, [.net req])
      else if t = "chat" then
        let req := Request.getChatsReq (-i)
        (env.invokeGeneric req, [.net req])
      else
        let req := Request.getChannelsReq (get_channel_id i) 0
        (env.invokeGeneric req, [.net req])

/-- The test `peer_id in (None, "self", "me")`. -/
def isSelfTarget : PeerId → Bool
  | .pyNone => true
  | .pyStr s => s = "self" || s = "me"
  | .pyInt _ => false

/-- The cache tier of `resolve`: `_resolve_cached_username` for a string
identifier, `storage.get_peer_by_id` otherwise. -/
def cacheStep (env : Env) (pid : PeerId) : Except PyExc InputPeer × List Event :=
  match pid with
  | .pyStr s => resolveCachedUsername env s
  | .pyInt i => (env.getPeerById (some i), [.cacheIdLookup (some i)])
  | .pyNone => (env.getPeerById none, [.cacheIdLookup none])

/-- The exceptions caught by `resolve`'s cache handler:
`(KeyError, AttributeError, sqlite3.OperationalError)`. -/
def isCacheMissExc : PyExc → Bool
  | .keyError => true
  | .attributeError => true
  | .operationalError => true
  | _ => false

/-- The tiers of `resolve` after the cache: parse a string identifier
(username goes to `_resolve_username_api`, extracted numeric channel ID
goes to `_resolve_by_id`), a non-string identifier goes straight to
`_resolve_by_id`. -/
def afterCache (env : Env) (pid : PeerId) : Except PyExc InputPeer × List Event :=
  match pid with
  | .pyStr s =>
    match parseInputString s with
    | .inr u => resolveUsernameApi env u
    | .inl i => resolveById env (some i)
  | .pyInt i => resolveById env (some i)
  | .pyNone => resolveById env none

/-- Model of `PeerResolver.resolve`: connection check, identity shortcut, optional
cache tier (its `KeyError`/`AttributeError`/`OperationalError` logged and
swallowed), then parse-and-resolve tiers. -/
def resolve (env : Env) (pid : PeerId) (use_cache : Bool) :
    Except PyExc InputPeer × List Event :=
  if !env.is_connected then (.error .connectionError, [])
  else if isSelfTarget pid then (.ok .inputPeerSelf, [])
  else if use_cache then
    match cacheStep env pid with
    | (.ok p, evs) => (.ok p, evs)
    | (.error e, evs) =>
      if isCacheMissExc e then
        let r := afterCache env pid
        (r.1, evs ++ r.2)
      else (.error e, evs)
  else afterCache env pid

/-- Is a `ResolveUsername` answer peer a `PeerUser` or `PeerChannel`
(the two kinds `_resolve_username_api` accepts)? -/
def isPeerUserOrChannel : RawPeer → Bool
  | .peerUser _ => true
  | .peerChannel _ => true
  | _ => false

/-- The `access_hash` of an input peer constructed by this module (`none`
for `InputPeerSelf` and for externally produced peers). -/
def peerAccessHash : InputPeer → Option Int
  | .inputPeerUser _ h => some h
  | .inputPeerChannel _ h => some h
  | _ => none

/-- The `access_hash` carried inside a raw API request (`none` when the
request embeds no input peer). -/
def reqAccessHash : Request → Option Int
  | .getUsersReq _ h => some h
  | .getChannelsReq _ h => some h
  | _ => none

/-- The first external call the cache tier performs for an identifier:
`get_peer_by_username` on the raw string, `get_peer_by_id` otherwise. -/
def rawCacheEvent : PeerId → Event
  | .pyStr s => .cacheUsernameLookup s
  | .pyInt i => .cacheIdLookup (some i)
  | .pyNone => .cacheIdLookup none

/-- Is an event a cache/storage access (as opposed to a network call)? -/
def evIsCache : Event → Bool
  | .cacheUsernameLookup _ => true
  | .cacheIdLookup _ => true
  | .sqliteQuery _ => true
  | .net _ => false

/-- A connected client whose cache misses with `KeyError` everywhere and
whose `ResolveUsername` answers with a `PeerUser`. -/
def testEnv : Env where
  is_connected := true
  getPeerByUsername := fun _ => .error .keyError
  sqliteFetch := fun _ => .ok none
  parsePeerRow := fun _ => .error .keyError
  getPeerById := fun _ => .error .keyError
  invokeResolve := fun _ => .ok ⟨some (.peerUser 7)⟩
  invokeGeneric := fun _ => .ok (.externalPeer 0)

/-- Like `testEnv`, but `ResolveUsername` answers with a `PeerChat`,
which `_resolve_username_api` rejects. -/
def envInvalidPeer : Env :=
  { testEnv with invokeResolve := fun _ => .ok ⟨some (.peerChat 9)⟩ }

/-- A client that is not connected. -/
def envOffline : Env := { testEnv with is_connected := false }

/-! ### Helper lemmas about the character-level model -/

theorem pyToLower_cases (c : Char) :
    pyToLower c = c ∨ pyToLower c ∈
      ['a', 'b', 'c', 'd', 'e', 'f', 'g', 'h', 'i', 'j', 'k', 'l', 'm',
       'n', 'o', 'p', 'q', 'r', 's', 't', 'u', 'v', 'w', 'x', 'y', 'z'] := by
  unfold pyToLower
  split <;> first | (right ; decide) | (left ; rfl)

theorem pyToLower_idem (c : Char) : pyToLower (pyToLower c) = pyToLower c := by
  rcases pyToLower_cases c with h | h
  · rw [h]; exact h
  · simp only [List.mem_cons, List.not_mem_nil, or_false] at h
    rcases h with h|h|h|h|h|h|h|h|h|h|h|h|h|h|h|h|h|h|h|h|h|h|h|h|h|h <;>
      rw [h] <;> decide

theorem strippedChar_pyToLower (c : Char) :
    strippedChar (pyToLower c) = strippedChar c := by
  unfold pyToLower
  split <;> first | decide | rfl

theorem word_not_stripped {c : Char} (h : isWordChar c = true) :
    strippedChar c = false := by
  cases hs : strippedChar c with
  | false => rfl
  | true =>
    exfalso
    have hb : c = '@' ∨ c = '+' ∨ c = ' ' ∨ c = '\t' ∨ c = '\n' ∨
        c = '\r' ∨ c = '\x0b' ∨ c = '\x0c' := by
      simpa [strippedChar, isPySpace, or_assoc] using hs
    rcases hb with h1 | h1 | h1 | h1 | h1 | h1 | h1 | h1 <;>
      subst h1 <;> exact absurd h (by decide)

theorem map_id_of {f : Char → Char} {l : List Char}
    (h : ∀ c ∈ l, f c = c) : l.map f = l := by
  induction l with
  | nil => rfl
  | cons a as ih =>
    rw [List.map_cons, h a (List.mem_cons_self a as),
      ih (fun c hc => h c (List.mem_cons_of_mem a hc))]

theorem filter_all {p : Char → Bool} {l : List Char}
    (h : ∀ c ∈ l, p c = true) : l.filter p = l := by
  induction l with
  | nil => rfl
  | cons a as ih =>
    rw [List.filter_cons_of_pos (h a (List.mem_cons_self a as)),
      ih (fun c hc => h c (List.mem_cons_of_mem a hc))]

theorem takeWhile_all {p : Char → Bool} {l : List Char}
    (h : ∀ c ∈ l, p c = true) : List.takeWhile p l = l := by
  induction l with
  | nil => rfl
  | cons a as ih =>
    rw [List.takeWhile_cons, if_pos (h a (List.mem_cons_self a as)),
      ih (fun c hc => h c (List.mem_cons_of_mem a hc))]

theorem mem_takeWhile_word {p : Char → Bool} {l : List Char} {c : Char}
    (h : c ∈ List.takeWhile p l) : p c = true ∧ c ∈ l := by
  induction l with
  | nil => simp [List.takeWhile] at h
  | cons a as ih =>
    rw [List.takeWhile_cons] at h
    cases hp : p a with
    | true =>
      rw [if_pos hp] at h
      rcases List.mem_cons.mp h with h | h
      · rw [h]; exact ⟨hp, List.mem_cons_self a as⟩
      · obtain ⟨h1, h2⟩ := ih h
        exact ⟨h1, List.mem_cons_of_mem a h2⟩
    | false =>
      rw [if_neg (by simp [hp])] at h
      cases h

theorem dropLit_some {lit l r : List Char} (h : dropLit lit l = some r) :
    l = lit ++ r := by
  induction lit generalizing l with
  | nil =>
    simp only [dropLit, Option.some.injEq] at h
    simp [h]
  | cons p ps ih =>
    cases l with
    | nil => simp [dropLit] at h
    | cons c cs =>
      by_cases hc : c = p
      · subst hc
        simp only [dropLit, if_pos rfl] at h
        simp [ih h]
      · simp [dropLit, hc] at h

theorem dropLit_none_of_word {lit l : List Char}
    (hbad : ∃ c ∈ lit, isWordChar c = false)
    (hl : ∀ c ∈ l, isWordChar c = true) : dropLit lit l = none := by
  cases h : dropLit lit l with
  | none => rfl
  | some r =>
    obtain ⟨c, hcl, hcw⟩ := hbad
    have hcl2 : c ∈ l := by
      rw [dropLit_some h]; exact List.mem_append_left _ hcl
    rw [hl c hcl2] at hcw
    cases hcw

theorem mem_of_dropScheme {l : List Char} {c : Char}
    (h : c ∈ dropScheme l) : c ∈ l := by
  unfold dropScheme at h
  cases h1 : dropLit litHttps l with
  | some r =>
    rw [h1] at h
    rw [dropLit_some h1]
    exact List.mem_append_right _ h
  | none =>
    rw [h1] at h
    cases h2 : dropLit litHttp l with
    | some r =>
      rw [h2] at h
      rw [dropLit_some h2]
      exact List.mem_append_right _ h
    | none => rw [h2] at h; exact h

theorem mem_of_dropHost {l r : List Char} {c : Char}
    (h : dropHost l = some r) (hc : c ∈ r) : c ∈ l := by
  unfold dropHost at h
  cases h1 : dropLit litTme l with
  | some x =>
    rw [h1, Option.some.injEq] at h
    subst h
    rw [dropLit_some h1]
    exact List.mem_append_right _ hc
  | none =>
    rw [h1] at h
    cases h2 : dropLit litTgOrg l with
    | some x =>
      rw [h2, Option.some.injEq] at h
      subst h
      rw [dropLit_some h2]
      exact List.mem_append_right _ hc
    | none =>
      rw [h2] at h
      cases h3 : dropLit litTgMe l with
      | some x =>
        rw [h3, Option.some.injEq] at h
        subst h
        rw [dropLit_some h3]
        exact List.mem_append_right _ hc
      | none =>
        rw [h3] at h
        cases h4 : dropLit litTgDog l with
        | some x =>
          rw [h4, Option.some.injEq] at h
          subst h
          rw [dropLit_some h4]
          exact List.mem_append_right _ hc
        | none => rw [h4] at h; cases h

theorem groupTail_nil : groupTail [] = some ['c'] := rfl

theorem groupTail_cons (c : Char) (cs : List Char) :
    groupTail (c :: cs) =
      if isWordChar c then some (List.takeWhile isWordChar (c :: cs))
      else some ['c'] := rfl

theorem groupOf_nil : groupOf [] = none := rfl

theorem groupOf_single (a : Char) :
    groupOf [a] = if isWordChar a then some [a] else none := rfl

theorem groupOf_cons2 (a b : Char) (tail : List Char) :
    groupOf (a :: b :: tail) =
      if a = 'c' ∧ b = '/' then groupTail tail
      else if List.takeWhile isWordChar (a :: b :: tail) = [] then none
      else some (List.takeWhile isWordChar (a :: b :: tail)) := rfl

theorem groupOf_props {rest g : List Char} (h : groupOf rest = some g) :
    ∀ c ∈ g, isWordChar c = true ∧ c ∈ rest := by
  intro c hc
  match rest with
  | [] => simp [groupOf] at h
  | [a] =>
    rw [groupOf_single] at h
    by_cases ha : isWordChar a = true
    · rw [if_pos ha, Option.some.injEq] at h
      subst h
      rcases List.mem_cons.mp hc with h | h
      · rw [h]; exact ⟨ha, List.mem_cons_self a []⟩
      · cases h
    · rw [if_neg (by simp [ha])] at h; cases h
  | a :: b :: tail =>
    rw [groupOf_cons2] at h
    by_cases hab : a = 'c' ∧ b = '/'
    · rw [if_pos hab] at h
      obtain ⟨ha, hb⟩ := hab
      subst ha; subst hb
      match tail with
      | [] =>
        rw [groupTail_nil, Option.some.injEq] at h
        subst h
        rcases List.mem_cons.mp hc with h | h
        · subst h; exact ⟨by decide, List.mem_cons_self _ _⟩
        · cases h
      | d :: ds =>
        rw [groupTail_cons] at h
        by_cases hd : isWordChar d = true
        · rw [if_pos hd, Option.some.injEq] at h
          subst h
          obtain ⟨h1, h2⟩ := mem_takeWhile_word hc
          exact ⟨h1, List.mem_cons_of_mem _ (List.mem_cons_of_mem _ h2)⟩
        · rw [if_neg (by simp [hd]), Option.some.injEq] at h
          subst h
          rcases List.mem_cons.mp hc with h | h
          · subst h; exact ⟨by decide, List.mem_cons_self _ _⟩
          · cases h
    · rw [if_neg hab] at h
      by_cases hemp : List.takeWhile isWordChar (a :: b :: tail) = []
      · rw [if_pos hemp] at h; cases h
      · rw [if_neg hemp, Option.some.injEq] at h
        subst h
        exact mem_takeWhile_word hc

theorem groupOf_word_all {l : List Char}
    (hw : ∀ c ∈ l, isWordChar c = true) (hne : l ≠ []) :
    groupOf l = some l := by
  match l with
  | [] => exact absurd rfl hne
  | [a] =>
    rw [groupOf_single, if_pos (hw a (List.mem_cons_self a []))]
  | a :: b :: tail =>
    have hb : isWordChar b = true :=
      hw b (List.mem_cons_of_mem a (List.mem_cons_self b tail))
    have hab : ¬ (a = 'c' ∧ b = '/') := by
      rintro ⟨-, hb2⟩
      subst hb2
      exact absurd hb (by decide)
    have htw : List.takeWhile isWordChar (a :: b :: tail) = a :: b :: tail :=
      takeWhile_all hw
    rw [groupOf_cons2, if_neg hab, htw, if_neg (by simp)]

theorem pyMatchGroup_props {l g : List Char} (h : pyMatchGroup l = some g) :
    ∀ c ∈ g, isWordChar c = true ∧ c ∈ l := by
  unfold pyMatchGroup at h
  cases hh : dropHost (dropScheme l) with
  | none => rw [hh] at h; cases h
  | some rest =>
    rw [hh] at h
    intro c hc
    obtain ⟨hw, hmem⟩ := groupOf_props h c hc
    exact ⟨hw, mem_of_dropScheme (mem_of_dropHost hh hmem)⟩

theorem pyMatchGroup_word_none {l : List Char}
    (h : ∀ c ∈ l, isWordChar c = true) : pyMatchGroup l = none := by
  have h1 : dropLit litHttps l = none :=
    dropLit_none_of_word ⟨':', by decide, by decide⟩ h
  have h2 : dropLit litHttp l = none :=
    dropLit_none_of_word ⟨':', by decide, by decide⟩ h
  have hs : dropScheme l = l := by unfold dropScheme; rw [h1, h2]
  have h3 : dropLit litTme l = none :=
    dropLit_none_of_word ⟨'.', by decide, by decide⟩ h
  have h4 : dropLit litTgOrg l = none :=
    dropLit_none_of_word ⟨'.', by decide, by decide⟩ h
  have h5 : dropLit litTgMe l = none :=
    dropLit_none_of_word ⟨'.', by decide, by decide⟩ h
  have h6 : dropLit litTgDog l = none :=
    dropLit_none_of_word ⟨'.', by decide, by decide⟩ h
  unfold pyMatchGroup
  rw [hs]
  unfold dropHost
  rw [h3, h4, h5, h6]

theorem data_append (s t : String) : (s ++ t).data = s.data ++ t.data := rfl

theorem pmg_tme (x : List Char) :
    pyMatchGroup (['t', '.', 'm', 'e', '/'] ++ x) = groupOf x := rfl

theorem pmg_tgorg (x : List Char) :
    pyMatchGroup (['t', 'e', 'l', 'e', 'g', 'r', 'a', 'm', '.', 'o', 'r', 'g', '/'] ++ x) =
      groupOf x := rfl

theorem pmg_tgme (x : List Char) :
    pyMatchGroup (['t', 'e', 'l', 'e', 'g', 'r', 'a', 'm', '.', 'm', 'e', '/'] ++ x) =
      groupOf x := rfl

theorem pmg_tgdog (x : List Char) :
    pyMatchGroup (['t', 'e', 'l', 'e', 'g', 'r', 'a', 'm', '.', 'd', 'o', 'g', '/'] ++ x) =
      groupOf x := rfl

theorem parse_word_fixed (t : String)
    (hw : ∀ c ∈ t.data, isWordChar c = true)
    (hf : ∀ c ∈ t.data, pyToLower c = c) :
    parseInputString t = Sum.inr t := by
  have hlow : pyLower t.data = t.data := map_id_of hf
  simp only [parseInputString]
  rw [hlow, pyMatchGroup_word_none hw,
    filter_all (fun c hc => by rw [word_not_stripped (hw c hc)]; rfl)]

/-! ### Claim theorems -/

/-- C7: for every identifier in {None, "self", "me"}, `resolve` on a
connected client returns `InputPeerSelf` via the identity shortcut, with
an empty external-call trace (so before any cache lookup or network
call), regardless of the `use_cache` flag. -/
theorem C7_resolve_self_shortcut (env : Env) (pid : PeerId) (uc : Bool)
    (hc : env.is_connected = true) (hs : isSelfTarget pid = true) :
    resolve env pid uc = (.ok .inputPeerSelf, []) := by
  simp [resolve, hc, hs]

/-- Witness for C7 at a concrete client, `peer_id = None`, cache on. -/
theorem C7_witness :
    resolve testEnv PeerId.pyNone true = (.ok .inputPeerSelf, []) :=
  C7_resolve_self_shortcut testEnv PeerId.pyNone true rfl rfl

/-- C8: when the client is not connected, `resolve` raises
`ConnectionError` with an empty external-call trace — before any cache
lookup, parsing, or network resolution — for every identifier and every
value of the cache flag. -/
theorem C8_resolve_not_connected (env : Env) (pid : PeerId) (uc : Bool)
    (hc : env.is_connected = false) :
    resolve env pid uc = (.error .connectionError, []) := by
  simp [resolve, hc]

/-- Witness for C8 on a disconnected client. -/
theorem C8_witness :
    resolve envOffline (PeerId.pyStr "foo") true =
      (.error .connectionError, []) :=
  C8_resolve_not_connected envOffline (PeerId.pyStr "foo") true rfl

/-- C6: for every numeric identifier in the channel ID range
`[MIN_CHANNEL_ID, MAX_CHANNEL_ID)`, `_resolve_by_id` selects the channel
branch: it sends exactly one `channels.GetChannels` request (and no
`users.GetUsers` or `messages.GetChats` request). -/
theorem C6_channel_range_selects_channels (env : Env) (i : Int)
    (h1 : MIN_CHANNEL_ID ≤ i) (h2 : i < MAX_CHANNEL_ID) :
    resolveById env (some i) =
      (env.invokeGeneric (Request.getChannelsReq (get_channel_id i) 0),
       [Event.net (Request.getChannelsReq (get_channel_id i) 0)]) := by
  have hneg : i < 0 := lt_trans h2 (by decide)
  have hchat : ¬ MIN_CHAT_ID ≤ i := not_le.mpr (lt_trans h2 (by decide))
  have hgt : get_peer_type i = .ok "channel" := by
    unfold get_peer_type
    rw [if_pos hneg, if_neg hchat, if_pos h1]
  simp only [resolveById]
  rw [hgt]
  simp

/-- Witness for C6 at the in-range ID -1000000000123. -/
theorem C6_witness :
    resolveById testEnv (some (-1000000000123 : Int)) =
      (testEnv.invokeGeneric
        (Request.getChannelsReq (get_channel_id (-1000000000123)) 0),
       [Event.net (Request.getChannelsReq (get_channel_id (-1000000000123)) 0)]) :=
  C6_channel_range_selects_channels testEnv (-1000000000123)
    (by decide) (by decide)

/-- C4: on a connected client with `use_cache = true`, when the cache
tier raises `KeyError`, `AttributeError` or `sqlite3.OperationalError`,
`resolve` continues with the remaining fallback tiers: its outcome is
exactly the outcome of the cache-disabled run (so the cache-miss error
itself is never surfaced to the caller), with the cache tier's trace
prepended. -/
theorem C4_cache_miss_superseded (env : Env) (pid : PeerId) (e : PyExc)
    (evs : List Event) (hc : env.is_connected = true)
    (hs : isSelfTarget pid = false)
    (hstep : cacheStep env pid = (.error e, evs))
    (hmiss : isCacheMissExc e = true) :
    resolve env pid true =
      ((resolve env pid false).1, evs ++ (resolve env pid false).2) := by
  have hfalse : resolve env pid false = afterCache env pid := by
    simp [resolve, hc, hs]
  rw [hfalse]
  simp [resolve, hc, hs, hstep, hmiss]

/-- Witness for C4: a `KeyError` cache miss on a numeric ID. -/
theorem C4_witness :
    resolve testEnv (PeerId.pyInt 5) true =
      ((resolve testEnv (PeerId.pyInt 5) false).1,
        [Event.cacheIdLookup (some 5)] ++
          (resolve testEnv (PeerId.pyInt 5) false).2) :=
  C4_cache_miss_superseded testEnv (PeerId.pyInt 5) PyExc.keyError
    [Event.cacheIdLookup (some 5)] rfl rfl rfl rfl

/-- C3: when the `ResolveUsername` answer contains a peer that is
neither `PeerUser` nor `PeerChannel`, `_resolve_username_api` raises
`PeerIdInvalid`, and `resolve` (reaching the username tier either with
the cache disabled or after a swallowed cache miss) surfaces that error
to the caller unhandled. -/
theorem C3_invalid_peer_surfaced (env : Env) (s u : String) (uc : Bool)
    (res : ApiResult) (p : RawPeer)
    (hc : env.is_connected = true)
    (hs : isSelfTarget (PeerId.pyStr s) = false)
    (hparse : parseInputString s = Sum.inr u)
    (hres : env.invokeResolve u = .ok res)
    (hpeer : res.peer = some p)
    (hnot : isPeerUserOrChannel p = false)
    (hcache : uc = false ∨
      ∃ e evs, cacheStep env (PeerId.pyStr s) = (.error e, evs) ∧
        isCacheMissExc e = true) :
    (resolveUsernameApi env u).1 = .error .peerIdInvalid ∧
    (resolve env (PeerId.pyStr s) uc).1 = .error .peerIdInvalid := by
  have hapi : (resolveUsernameApi env u).1 = .error .peerIdInvalid := by
    simp only [resolveUsernameApi, hres, hpeer]
    cases p with
    | peerUser uid => simp [isPeerUserOrChannel] at hnot
    | peerChannel cid => simp [isPeerUserOrChannel] at hnot
    | peerChat cid => rfl
    | otherPeer t => rfl
  refine ⟨hapi, ?_⟩
  have hafter : (afterCache env (PeerId.pyStr s)).1 = .error .peerIdInvalid := by
    simp only [afterCache]
    rw [hparse]
    exact hapi
  have hredf : resolve env (PeerId.pyStr s) false = afterCache env (PeerId.pyStr s) := by
    simp [resolve, hc, hs]
  rcases hcache with huc | ⟨e, evs, hstep, hmiss⟩
  · subst huc
    rw [hredf]
    exact hafter
  · cases uc with
    | false =>
      rw [hredf]
      exact hafter
    | true =>
      have hred : resolve env (PeerId.pyStr s) true =
          ((afterCache env (PeerId.pyStr s)).1,
            evs ++ (afterCache env (PeerId.pyStr s)).2) := by
        simp [resolve, hc, hs, hstep, hmiss]
      rw [hred]
      exact hafter

/-- Witness for C3: a `PeerChat` answer for username "foo", cache off. -/
theorem C3_witness :
    (resolveUsernameApi envInvalidPeer "foo").1 = .error .peerIdInvalid ∧
    (resolve envInvalidPeer (PeerId.pyStr "foo") false).1 =
      .error .peerIdInvalid :=
  C3_invalid_peer_surfaced envInvalidPeer "foo" "foo" false
    ⟨some (RawPeer.peerChat 9)⟩ (RawPeer.peerChat 9) rfl rfl (by decide)
    rfl rfl rfl (Or.inl rfl)

/-- C2 counterexample: the network tier's domain-specific error
(`PeerIdInvalid` on an invalid peer type) is not superseded by the next
fallback tier: on a connected client `resolve` returns it to the caller,
and the trace shows that after the `ResolveUsername` call no further
tier was consulted.  This contradicts the claim that every fallback
tier's domain-specific error is logged and superseded. -/
theorem C2_counterexample :
    resolve envInvalidPeer (PeerId.pyStr "abc") false =
      (.error .peerIdInvalid, [Event.net (Request.resolveUsernameReq "abc")]) := by
  rfl

/-- C2 as amended: only the cache tier's domain-specific errors
(`KeyError`/`AttributeError`/`OperationalError`, the cache-miss kinds)
are logged and superseded by the next fallback tier; the network tier's
invalid-peer-type error (`PeerIdInvalid`) is raised instead of being
superseded. -/
theorem C2_amended_tiers :
    (∀ (env : Env) (pid : PeerId) (e : PyExc) (evs : List Event),
        env.is_connected = true → isSelfTarget pid = false →
        cacheStep env pid = (.error e, evs) → isCacheMissExc e = true →
        (resolve env pid true).1 = (afterCache env pid).1) ∧
    (∀ (env : Env) (u : String) (res : ApiResult) (p : RawPeer),
        env.invokeResolve u = .ok res → res.peer = some p →
        isPeerUserOrChannel p = false →
        (resolveUsernameApi env u).1 = .error .peerIdInvalid) := by
  constructor
  · intro env pid e evs hc hs hstep hmiss
    simp [resolve, hc, hs, hstep, hmiss]
  · intro env u res p hres hpeer hnot
    simp only [resolveUsernameApi, hres, hpeer]
    cases p with
    | peerUser uid => simp [isPeerUserOrChannel] at hnot
    | peerChannel cid => simp [isPeerUserOrChannel] at hnot
    | peerChat cid => rfl
    | otherPeer t => rfl

/-- Witness for the amended C2: a swallowed `KeyError` cache miss, and a
raised `PeerIdInvalid` on a `PeerChat` answer. -/
theorem C2_amended_witness :
    (resolve testEnv (PeerId.pyInt 5) true).1 =
      (afterCache testEnv (PeerId.pyInt 5)).1 ∧
    (resolveUsernameApi envInvalidPeer "u").1 = .error .peerIdInvalid :=
  ⟨C2_amended_tiers.1 testEnv (PeerId.pyInt 5) PyExc.keyError
      [Event.cacheIdLookup (some 5)] rfl rfl rfl rfl,
   C2_amended_tiers.2 envInvalidPeer "u" ⟨some (RawPeer.peerChat 9)⟩
      (RawPeer.peerChat 9) rfl rfl rfl⟩

theorem cacheStep_trace_head (env : Env) (pid : PeerId) :
    ∃ t, (cacheStep env pid).2 = rawCacheEvent pid :: t := by
  cases pid with
  | pyNone => exact ⟨[], rfl⟩
  | pyInt i => exact ⟨[], rfl⟩
  | pyStr s =>
    show ∃ t, (resolveCachedUsername env s).2 = Event.cacheUsernameLookup s :: t
    simp only [resolveCachedUsername]
    split
    · exact ⟨[], rfl⟩
    · split
      · exact ⟨[Event.sqliteQuery (String.mk (pyLower s.data))], rfl⟩
      · exact ⟨[Event.sqliteQuery (String.mk (pyLower s.data))], rfl⟩
      · exact ⟨[Event.sqliteQuery (String.mk (pyLower s.data))], rfl⟩
    · exact ⟨[], rfl⟩

/-- C9: for every non-shortcut identifier with `use_cache = true` on a
connected client, the first external call of `resolve` is the cache
lookup on the raw, un-normalized identifier; consequently no network
call (indeed no external call at all) precedes the cache consultation in
the trace. -/
theorem C9_cache_before_network (env : Env) (pid : PeerId)
    (hc : env.is_connected = true) (hs : isSelfTarget pid = false) :
    (∃ rest, (resolve env pid true).2 = rawCacheEvent pid :: rest) ∧
    (∀ pre e post, (resolve env pid true).2 = pre ++ e :: post →
      evIsCache e = false → ∃ c ∈ pre, evIsCache c = true) := by
  obtain ⟨t0, ht0⟩ := cacheStep_trace_head env pid
  have hhead : ∃ rest, (resolve env pid true).2 = rawCacheEvent pid :: rest := by
    rcases hcs : cacheStep env pid with ⟨r, evs⟩
    have ht0' : evs = rawCacheEvent pid :: t0 := by rw [hcs] at ht0; exact ht0
    cases r with
    | ok p =>
      have hr : resolve env pid true = (.ok p, evs) := by
        simp [resolve, hc, hs, hcs]
      rw [hr]
      exact ⟨t0, ht0'⟩
    | error e =>
      cases hm : isCacheMissExc e with
      | true =>
        have hr : resolve env pid true =
            ((afterCache env pid).1, evs ++ (afterCache env pid).2) := by
          simp [resolve, hc, hs, hcs, hm]
        rw [hr]
        exact ⟨t0 ++ (afterCache env pid).2, by rw [ht0']; simp⟩
      | false =>
        have hr : resolve env pid true = (.error e, evs) := by
          simp [resolve, hc, hs, hcs, hm]
        rw [hr]
        exact ⟨t0, ht0'⟩
  refine ⟨hhead, ?_⟩
  obtain ⟨rest, hrest⟩ := hhead
  have hcachehead : evIsCache (rawCacheEvent pid) = true := by
    cases pid <;> rfl
  intro pre e post heq hnet
  cases pre with
  | nil =>
    rw [hrest] at heq
    simp only [List.nil_append, List.cons.injEq] at heq
    rw [heq.1] at hcachehead
    rw [hcachehead] at hnet
    cases hnet
  | cons x pre2 =>
    rw [hrest] at heq
    simp only [List.cons_append, List.cons.injEq] at heq
    exact ⟨x, List.mem_cons_self x pre2, by rw [← heq.1]; exact hcachehead⟩

/-- Witness for C9: numeric identifier 5, cache on. -/
theorem C9_witness :
    (∃ rest, (resolve testEnv (PeerId.pyInt 5) true).2 =
        rawCacheEvent (PeerId.pyInt 5) :: rest) ∧
    (∀ pre e post,
      (resolve testEnv (PeerId.pyInt 5) true).2 = pre ++ e :: post →
      evIsCache e = false → ∃ c ∈ pre, evIsCache c = true) :=
  C9_cache_before_network testEnv (PeerId.pyInt 5) rfl rfl

/-- C10: every input peer the resolver itself constructs on the network
path carries `access_hash = 0`: any `InputPeerUser`/`InputPeerChannel`
returned by `_resolve_username_api` has access hash 0, and any request
`_resolve_by_id` sends carries either no input peer (`GetChats`) or an
`InputUser`/`InputChannel` with access hash 0. -/
theorem C10_constructed_access_hash_zero :
    (∀ (env : Env) (u : String) (p : InputPeer),
        (resolveUsernameApi env u).1 = .ok p → peerAccessHash p = some 0) ∧
    (∀ (env : Env) (oi : Option Int) (req : Request),
        Event.net req ∈ (resolveById env oi).2 →
        reqAccessHash req = none ∨ reqAccessHash req = some 0) := by
  constructor
  · intro env u p h
    simp only [resolveUsernameApi] at h
    split at h
    · simp at h
    · split at h
      · simp only [Prod.fst] at h
        rw [← Option.some.injEq] at h
        simp at h
        rw [← h]
        rfl
      · simp only [Prod.fst] at h
        rw [← Option.some.injEq] at h
        simp at h
        rw [← h]
        rfl
      · simp at h
  · intro env oi req h
    cases oi with
    | none => simp [resolveById] at h
    | some i =>
      simp only [resolveById] at h
      split at h
      · simp at h
      · split at h
        · simp at h
          subst h
          right; rfl
        · split at h
          · simp at h
            subst h
            left; rfl
          · simp at h
            subst h
            right; rfl

/-- Witness for C10: the `PeerUser` answer of `testEnv` and the
`GetUsers` request for ID 5. -/
theorem C10_witness :
    peerAccessHash (InputPeer.inputPeerUser 7 0) = some 0 ∧
    (reqAccessHash (Request.getUsersReq 5 0) = none ∨
      reqAccessHash (Request.getUsersReq 5 0) = some 0) :=
  ⟨C10_constructed_access_hash_zero.1 testEnv "u"
      (InputPeer.inputPeerUser 7 0) rfl,
   C10_constructed_access_hash_zero.2 testEnv (some 5)
      (Request.getUsersReq 5 0) (by decide)⟩

/-- C1 counterexample: for the link "t.me/123" the extracted identifier
is NOT the path segment "123": the numeric segment is converted by
`get_channel_id` into the channel ID -1000000000123. -/
theorem C1_counterexample :
    parseInputString "t.me/123" = Sum.inl (-1000000000123) ∧
    parseInputString "t.me/123" ≠ Sum.inr "123" :=
  ⟨by decide, by decide⟩

/-- C1 as amended: for a t.me / telegram.org / telegram.me /
telegram.dog link whose path segment is a nonempty lowercase
word-character string that is not a valid Python integer literal, the
identifier extracted by `_parse_input_string` equals the path segment
(numeric segments are instead converted to a channel ID, as shown by the
counterexample). -/
theorem C1_amended_link_extraction (host seg : String)
    (hh : host = "t.me/" ∨ host = "telegram.org/" ∨
      host = "telegram.me/" ∨ host = "telegram.dog/")
    (hne : seg.data ≠ [])
    (hw : ∀ c ∈ seg.data, isWordChar c = true)
    (hf : ∀ c ∈ seg.data, pyToLower c = c)
    (hint : goodInt seg.data = false) :
    parseInputString (host ++ seg) = Sum.inr seg := by
  have hgrp : groupOf seg.data = some seg.data := groupOf_word_all hw hne
  have hio : intOfWord seg.data = none := by simp [intOfWord, hint]
  have hmapseg : List.map pyToLower seg.data = seg.data := map_id_of hf
  rcases hh with hh | hh | hh | hh <;> subst hh
  · simp only [parseInputString, data_append]
    rw [show pyLower (['t', '.', 'm', 'e', '/'] ++ seg.data) = ['t', '.', 'm', 'e', '/'] ++ seg.data from by
      simp only [pyLower, List.map_append, hmapseg]
      rfl]
    rw [pmg_tme, hgrp]
    simp only [hio]
  · simp only [parseInputString, data_append]
    rw [show pyLower (['t', 'e', 'l', 'e', 'g', 'r', 'a', 'm', '.', 'o', 'r', 'g', '/'] ++ seg.data) = ['t', 'e', 'l', 'e', 'g', 'r', 'a', 'm', '.', 'o', 'r', 'g', '/'] ++ seg.data from by
      simp only [pyLower, List.map_append, hmapseg]
      rfl]
    rw [pmg_tgorg, hgrp]
    simp only [hio]
  · simp only [parseInputString, data_append]
    rw [show pyLower (['t', 'e', 'l', 'e', 'g', 'r', 'a', 'm', '.', 'm', 'e', '/'] ++ seg.data) = ['t', 'e', 'l', 'e', 'g', 'r', 'a', 'm', '.', 'm', 'e', '/'] ++ seg.data from by
      simp only [pyLower, List.map_append, hmapseg]
      rfl]
    rw [pmg_tgme, hgrp]
    simp only [hio]
  · simp only [parseInputString, data_append]
    rw [show pyLower (['t', 'e', 'l', 'e', 'g', 'r', 'a', 'm', '.', 'd', 'o', 'g', '/'] ++ seg.data) = ['t', 'e', 'l', 'e', 'g', 'r', 'a', 'm', '.', 'd', 'o', 'g', '/'] ++ seg.data from by
      simp only [pyLower, List.map_append, hmapseg]
      rfl]
    rw [pmg_tgdog, hgrp]
    simp only [hio]

/-- Witness for the amended C1 at the link "t.me/foo". -/
theorem C1_amended_witness :
    parseInputString ("t.me/" ++ "foo") = Sum.inr "foo" :=
  C1_amended_link_extraction "t.me/" "foo" (Or.inl rfl) (by decide)
    (by decide) (by decide) (by decide)

/-- C5 counterexample: `_parse_input_string` is not idempotent on its
own string output: on "t .me/foo" the stripping pass yields "t.me/foo",
and a second application re-matches the link regex and yields "foo". -/
theorem C5_counterexample :
    parseInputString "t .me/foo" = Sum.inr "t.me/foo" ∧
    parseInputString "t.me/foo" ≠ Sum.inr "t.me/foo" :=
  ⟨by decide, by decide⟩

/-- C5 as amended: `_parse_input_string` is idempotent on its own string
output for every input containing none of the stripped characters
('@', '+', whitespace) — exactly the inputs on which the stripping pass
cannot manufacture a fresh link match, as the counterexample does. -/
theorem C5_amended_idempotent (s : String)
    (hs : ∀ c ∈ s.data, strippedChar c = false)
    (t : String) (h : parseInputString s = Sum.inr t) :
    parseInputString t = Sum.inr t := by
  have hlowfix : ∀ c ∈ pyLower s.data, pyToLower c = c := by
    intro c hc
    obtain ⟨x, hx, hcx⟩ := List.mem_map.mp hc
    rw [← hcx]
    exact pyToLower_idem x
  simp only [parseInputString] at h
  split at h
  · rename_i g heqg
    split at h
    · simp at h
    · simp only [Sum.inr.injEq] at h
      subst h
      have hprops := pyMatchGroup_props heqg
      apply parse_word_fixed
      · intro c hc
        exact (hprops c hc).1
      · intro c hc
        exact hlowfix c (hprops c hc).2
  · rename_i heqg
    simp only [Sum.inr.injEq] at h
    have hnostrip : ∀ c ∈ pyLower s.data, strippedChar c = false := by
      intro c hc
      obtain ⟨x, hx, hcx⟩ := List.mem_map.mp hc
      rw [← hcx, strippedChar_pyToLower]
      exact hs x hx
    have hfilter :
        (pyLower s.data).filter (fun c => !strippedChar c) = pyLower s.data :=
      filter_all (fun c hc => by rw [hnostrip c hc]; rfl)
    rw [hfilter] at h
    subst h
    simp only [parseInputString]
    rw [show pyLower (pyLower s.data) = pyLower s.data from map_id_of hlowfix]
    rw [heqg]
    show Sum.inr (String.mk ((pyLower s.data).filter (fun c => !strippedChar c))) =
      Sum.inr (String.mk (pyLower s.data))
    rw [hfilter]

/-- Witness for the amended C5 at the strip-free input "Foo". -/
theorem C5_amended_witness :
    (∀ c ∈ ("Foo" : String).data, strippedChar c = false) ∧
    parseInputString "Foo" = Sum.inr "foo" ∧
    parseInputString "foo" = Sum.inr "foo" :=
  ⟨by decide, by decide,
   C5_amended_idempotent "Foo" (by decide) "foo" (by decide)⟩
